import Mathlib

/-!
Verification of the wol-relay packet relay engine (Rust sources under
`src/`): the magic-packet validator (`src/common.rs`), the network
sanitizer and transport-layer relay stage (`src/layer4.rs`), and the
link-layer worker startup and relay stage (`src/layer2.rs`).

Bytes are modelled as `Nat` (values < 256 in practice; no claim depends
on the bound), byte buffers as `List Nat`, and hardware addresses as the
6-byte list extracted from the payload.  Timestamps (`std::time::Instant`)
are modelled as `Nat` instants; `t.elapsed()` at time `now` is `now - t`.
The cooldown duration `common::COOLDOWN_DUR` is referenced by both relay
stages but its defining constant is not part of the sources under `src/`;
it is therefore passed as an explicit `cooldownDur` parameter, which is
faithful for every claim considered (none depends on its concrete value).
-/

/-- `common.rs`: `BROADCAST_MAC`, the synchronization pattern. -/
def BROADCAST_MAC : List Nat := [0xff, 0xff, 0xff, 0xff, 0xff, 0xff]

/-- Rust `slice::chunks(6)`: consecutive 6-byte chunks, the last chunk
possibly shorter, no empty chunks.  Structural recursion so that it
evaluates by kernel reduction. -/
def chunks6 : List Nat → List (List Nat)
  | [] => []
  | [a] => [[a]]
  | [a, b] => [[a, b]]
  | [a, b, c] => [[a, b, c]]
  | [a, b, c, d] => [[a, b, c, d]]
  | [a, b, c, d, e] => [[a, b, c, d, e]]
  | a :: b :: c :: d :: e :: f :: rest => [a, b, c, d, e, f] :: chunks6 rest

/-- `common.rs` lines 7-22: `check_wol_payload`.  Mirrors the early
returns: length below 102 is invalid; chunk 0 must equal the broadcast
pattern; every chunk from index 2 on must equal chunk 1. -/
def check_wol_payload (payload : List Nat) : Bool :=
  if payload.length < 102 then false
  else if (chunks6 payload).getD 0 [] ≠ BROADCAST_MAC then false
  else ((chunks6 payload).drop 2).all (fun b => b == (chunks6 payload).getD 1 [])

/-- `common.rs` lines 24-33: `wol_payload_get_target_mac` reads
`payload[6] .. payload[11]`; the Rust indexing panics out of bounds,
modelled by `none`. -/
def wol_payload_get_target_mac (payload : List Nat) : Option (List Nat) :=
  match payload.get? 6, payload.get? 7, payload.get? 8,
      payload.get? 9, payload.get? 10, payload.get? 11 with
  | some a, some b, some c, some d, some e, some f => some [a, b, c, d, e, f]
  | _, _, _, _, _, _ => none

/-- A canonical well-formed 102-byte magic packet: the synchronization
pattern followed by 16 repetitions of the 6-byte target address. -/
def mkWolPacket (mac : List Nat) : List Nat :=
  BROADCAST_MAC ++ (List.replicate 16 mac).flatten

/-! ### Chunk lemmas -/

lemma chunks6_eq_cons {l : List Nat} (h : l ≠ []) :
    chunks6 l = l.take 6 :: chunks6 (l.drop 6) := by
  match l with
  | [] => exact absurd rfl h
  | [_] => rfl
  | [_, _] => rfl
  | [_, _, _] => rfl
  | [_, _, _, _] => rfl
  | [_, _, _, _, _] => rfl
  | _ :: _ :: _ :: _ :: _ :: _ :: _ => rfl

lemma chunks6_append_block {b : List Nat} (hb : b.length = 6) (rest : List Nat) :
    chunks6 (b ++ rest) = b :: chunks6 rest := by
  match b, hb with
  | [_, _, _, _, _, _], _ =>
    cases rest with
    | nil => rfl
    | cons x xs => rfl

lemma chunks6_join_replicate {mac : List Nat} (hm : mac.length = 6) :
    ∀ n, chunks6 ((List.replicate n mac).flatten) = List.replicate n mac := by
  intro n
  induction n with
  | zero => rfl
  | succ k ih =>
    rw [List.replicate_succ, List.flatten_cons, chunks6_append_block hm, ih]

lemma chunks6_getD_zero {l : List Nat} (h : 6 ≤ l.length) :
    (chunks6 l).getD 0 [] = l.take 6 := by
  have hne : l ≠ [] := by
    intro he; subst he; simp at h
  rw [chunks6_eq_cons hne]
  rfl

lemma chunks6_getD_one {l : List Nat} (h : 6 < l.length) :
    (chunks6 l).getD 1 [] = (l.drop 6).take 6 := by
  have hne : l ≠ [] := by
    intro he; subst he; simp at h
  have hne2 : l.drop 6 ≠ [] := by
    intro he
    have := congrArg List.length he
    simp at this
    omega
  rw [chunks6_eq_cons hne, chunks6_eq_cons hne2]
  rfl

/-- When the length is not a multiple of six, some chunk is short. -/
lemma chunks6_exists_short (l : List Nat) (h : l.length % 6 ≠ 0) :
    ∃ b ∈ chunks6 l, b.length = l.length % 6 := by
  by_cases hnil : l = []
  · subst hnil; simp at h
  · by_cases hle : l.length < 6
    · refine ⟨l.take 6, ?_, ?_⟩
      · rw [chunks6_eq_cons hnil]; exact List.mem_cons_self _ _
      · rw [List.take_of_length_le (by omega)]
        omega
    · have hdlen : (l.drop 6).length = l.length - 6 := by simp
      have hdm : (l.drop 6).length % 6 ≠ 0 := by rw [hdlen]; omega
      obtain ⟨b, hb, hblen⟩ := chunks6_exists_short (l.drop 6) hdm
      refine ⟨b, ?_, ?_⟩
      · rw [chunks6_eq_cons hnil]
        exact List.mem_cons_of_mem _ hb
      · rw [hblen, hdlen]
        omega
termination_by l.length
decreasing_by
  simp only [List.length_drop]
  have : 0 < l.length := List.length_pos.mpr hnil
  omega

/-- Unfolding of the validator into its three conditions. -/
lemma check_iff_aux (p : List Nat) :
    check_wol_payload p = true ↔
      102 ≤ p.length ∧ (chunks6 p).getD 0 [] = BROADCAST_MAC ∧
        ∀ b ∈ (chunks6 p).drop 2, b = (chunks6 p).getD 1 [] := by
  unfold check_wol_payload
  by_cases h1 : p.length < 102
  · rw [if_pos h1]
    constructor
    · intro hf; exact absurd hf (by simp)
    · rintro ⟨h, -⟩; omega
  · rw [if_neg h1]
    by_cases h2 : (chunks6 p).getD 0 [] = BROADCAST_MAC
    · rw [if_neg (not_not_intro h2), List.all_eq_true]
      constructor
      · intro hall
        refine ⟨by omega, h2, fun b hb => ?_⟩
        simpa using hall b hb
      · rintro ⟨-, -, hall⟩
        intro b hb
        simpa using hall b hb
    · rw [if_pos h2]
      constructor
      · intro hf; exact absurd hf (by simp)
      · rintro ⟨-, hc, -⟩; exact absurd hc h2

lemma target_mac_eq (p : List Nat) (h : 11 < p.length) :
    wol_payload_get_target_mac p = some ((p.drop 6).take 6) := by
  match p, h with
  | a :: b :: c :: d :: e :: f :: g :: h' :: i :: j :: k :: l :: rest, _ => rfl

lemma chunks6_replicate_append {mac : List Nat} (hm : mac.length = 6) (s : List Nat) :
    ∀ n, chunks6 ((List.replicate n mac).flatten ++ s) = List.replicate n mac ++ chunks6 s := by
  intro n
  induction n with
  | zero => simp
  | succ k ih =>
    rw [List.replicate_succ, List.flatten_cons, List.append_assoc, chunks6_append_block hm, ih,
      List.cons_append]

lemma mkWolPacket_length {mac : List Nat} (hm : mac.length = 6) (s : List Nat) :
    (mkWolPacket mac ++ s).length = 102 + s.length := by
  simp [mkWolPacket, BROADCAST_MAC, List.length_flatten, List.map_replicate, hm]
  omega

/-! ### Claims about the magic-packet validator (`src/common.rs`) -/

/-- Claim C2: `check_wol_payload p` returns true iff `p` is at least
102 bytes long, its 6-byte block 0 equals FF:FF:FF:FF:FF:FF, and every
6-byte block from index 2 to the end equals block 1; and whenever the
validator accepts, the extracted target hardware address is exactly
block 1, i.e. bytes 6..12 of `p`. -/
theorem check_wol_payload_characterization (p : List Nat) :
    (check_wol_payload p = true ↔
      102 ≤ p.length ∧ (chunks6 p).getD 0 [] = BROADCAST_MAC ∧
        ∀ b ∈ (chunks6 p).drop 2, b = (chunks6 p).getD 1 []) ∧
    (check_wol_payload p = true →
      wol_payload_get_target_mac p = some ((chunks6 p).getD 1 []) ∧
      (chunks6 p).getD 1 [] = (p.drop 6).take 6) := by
  refine ⟨check_iff_aux p, fun hc => ?_⟩
  have h102 := ((check_iff_aux p).mp hc).1
  have h1 : (chunks6 p).getD 1 [] = (p.drop 6).take 6 := chunks6_getD_one (by omega)
  exact ⟨by rw [h1]; exact target_mac_eq p (by omega), h1⟩

/-- Witness for C2 at a concrete well-formed packet. -/
theorem check_wol_payload_characterization_witness :
    check_wol_payload (mkWolPacket [1, 2, 3, 4, 5, 6]) = true ∧
    wol_payload_get_target_mac (mkWolPacket [1, 2, 3, 4, 5, 6]) = some [1, 2, 3, 4, 5, 6] := by
  have h := (check_wol_payload_characterization (mkWolPacket [1, 2, 3, 4, 5, 6])).2 (by decide)
  refine ⟨by decide, ?_⟩
  rw [h.1]
  decide

/-- Claim C3 counterexample: a well-formed 102-byte magic packet with a
single trailing zero byte appended is rejected by `check_wol_payload`,
refuting the claim that trailing bytes are ignored. -/
theorem check_wol_payload_suffix_counterexample :
    check_wol_payload (mkWolPacket [1, 2, 3, 4, 5, 6] ++ [0]) = false := by decide

/-- Claim C3 (amended): trailing bytes are checked, not ignored: for a
well-formed 102-byte magic packet for a 6-byte target `mac`, the
validator accepts `p ++ s` iff every chunk in the 6-byte partition of the
suffix `s` equals `mac`, i.e. the suffix consists of whole extra
repetitions of the target; any other suffix (such as a password) makes
the buffer invalid. -/
theorem check_wol_payload_suffix (mac s : List Nat) (h : mac.length = 6) :
    check_wol_payload (mkWolPacket mac ++ s) = true ↔ ∀ b ∈ chunks6 s, b = mac := by
  have hB : (BROADCAST_MAC : List Nat).length = 6 := by decide
  have hchunks : chunks6 (mkWolPacket mac ++ s)
      = BROADCAST_MAC :: (List.replicate 16 mac ++ chunks6 s) := by
    rw [mkWolPacket, List.append_assoc, chunks6_append_block hB, chunks6_replicate_append h]
  have hlen := mkWolPacket_length h s
  have h1 : (chunks6 (mkWolPacket mac ++ s)).getD 1 [] = mac := by
    rw [hchunks, List.replicate_succ]
    rfl
  have hdrop : (chunks6 (mkWolPacket mac ++ s)).drop 2
      = List.replicate 15 mac ++ chunks6 s := by
    rw [hchunks, List.replicate_succ]
    rfl
  rw [check_iff_aux]
  constructor
  · rintro ⟨-, -, hall⟩ b hb
    have := hall b (by rw [hdrop]; exact List.mem_append_right _ hb)
    rwa [h1] at this
  · intro hs
    refine ⟨by omega, by rw [hchunks]; rfl, ?_⟩
    rw [hdrop, h1]
    intro b hb
    rcases List.mem_append.mp hb with hb | hb
    · exact List.eq_of_mem_replicate hb
    · exact hs b hb

/-- Witness for the amended C3: a suffix that is one extra repetition of
the target is accepted. -/
theorem check_wol_payload_suffix_witness :
    ([1, 2, 3, 4, 5, 6] : List Nat).length = 6 ∧
    check_wol_payload (mkWolPacket [1, 2, 3, 4, 5, 6] ++ [1, 2, 3, 4, 5, 6]) = true := by
  refine ⟨by decide, ?_⟩
  exact (check_wol_payload_suffix [1, 2, 3, 4, 5, 6] [1, 2, 3, 4, 5, 6] (by decide)).mpr
    (by decide)

/-- Claim C9: any buffer of length at least 102 whose length is not a
multiple of six is rejected: its final partial chunk can never equal the
full 6-byte block 1. -/
theorem check_wol_payload_len_not_multiple_of_six (p : List Nat)
    (h1 : 102 ≤ p.length) (h2 : p.length % 6 ≠ 0) :
    check_wol_payload p = false := by
  cases hc : check_wol_payload p with
  | false => rfl
  | true =>
    exfalso
    obtain ⟨-, hb0, hall⟩ := (check_iff_aux p).mp hc
    obtain ⟨b, hb, hblen⟩ := chunks6_exists_short p h2
    have hlt : b.length < 6 := by omega
    have hne : p ≠ [] := by intro he; subst he; simp at h1
    have hne2 : p.drop 6 ≠ [] := by
      intro he; have := congrArg List.length he; simp at this; omega
    have hch : chunks6 p = p.take 6 :: (p.drop 6).take 6 :: chunks6 ((p.drop 6).drop 6) := by
      rw [chunks6_eq_cons hne, chunks6_eq_cons hne2]
    have hc1len : ((p.drop 6).take 6).length = 6 := by
      simp
      omega
    rw [hch] at hb
    rcases List.mem_cons.mp hb with hb | hb
    · have : b.length = 6 := by rw [hb]; simp; omega
      omega
    rcases List.mem_cons.mp hb with hb | hb
    · have : b.length = 6 := by rw [hb]; exact hc1len
      omega
    · have hmem : b ∈ (chunks6 p).drop 2 := by rw [hch]; exact hb
      have heq := hall b hmem
      have hg1 : (chunks6 p).getD 1 [] = (p.drop 6).take 6 := by rw [hch]; rfl
      rw [heq, hg1] at hblen
      omega

/-- Witness for C9: a 103-byte buffer is rejected. -/
theorem check_wol_payload_len_not_multiple_of_six_witness :
    102 ≤ (mkWolPacket [1, 2, 3, 4, 5, 6] ++ [9]).length ∧
    (mkWolPacket [1, 2, 3, 4, 5, 6] ++ [9]).length % 6 ≠ 0 ∧
    check_wol_payload (mkWolPacket [1, 2, 3, 4, 5, 6] ++ [9]) = false := by
  refine ⟨by decide, by decide, ?_⟩
  exact check_wol_payload_len_not_multiple_of_six _ (by decide) (by decide)

/-- Claim C10: whenever the validator accepts a buffer `p`, the
target-address extraction reads only indices 6 through 11, all in bounds
(the buffer has at least 102 bytes), so it returns `some` — the
out-of-bounds panic branch, modelled as `none`, is unreachable. -/
theorem wol_payload_get_target_mac_in_bounds (p : List Nat)
    (h : check_wol_payload p = true) :
    wol_payload_get_target_mac p = some ((p.drop 6).take 6) := by
  have h102 := ((check_iff_aux p).mp h).1
  exact target_mac_eq p (by omega)

/-- Witness for C10. -/
theorem wol_payload_get_target_mac_in_bounds_witness :
    check_wol_payload (mkWolPacket [7, 7, 7, 7, 7, 7]) = true ∧
    wol_payload_get_target_mac (mkWolPacket [7, 7, 7, 7, 7, 7])
      = some (((mkWolPacket [7, 7, 7, 7, 7, 7]).drop 6).take 6) := by
  exact ⟨by decide, wol_payload_get_target_mac_in_bounds _ (by decide)⟩

/-! ### Network model (`src/layer4.rs`) -/

/-- `pnet::ipnetwork::IpNetwork`: an IPv4 or IPv6 address together with a
prefix length.  The address is the raw (possibly host) address as stored
by the crate; `plen` is the prefix length. -/
inductive IpNetwork where
  | V4 (addr : Nat) (plen : Nat)
  | V6 (addr : Nat) (plen : Nat)
  deriving DecidableEq, Repr

def v4NetworkAddr (addr plen : Nat) : Nat := addr / 2 ^ (32 - plen) * 2 ^ (32 - plen)

def v4BroadcastAddr (addr plen : Nat) : Nat := v4NetworkAddr addr plen + (2 ^ (32 - plen) - 1)

def v6NetworkAddr (addr plen : Nat) : Nat := addr / 2 ^ (128 - plen) * 2 ^ (128 - plen)

/-- `IpNetwork::ip()`. -/
def IpNetwork.ipAddr : IpNetwork → Nat
  | .V4 a _ => a
  | .V6 a _ => a

/-- `IpNetwork::is_ipv4()`. -/
def IpNetwork.isIpv4 : IpNetwork → Bool
  | .V4 _ _ => true
  | .V6 _ _ => false

/-- `IpAddr::is_unspecified` on the network's address. -/
def IpNetwork.isUnspecified : IpNetwork → Bool
  | .V4 a _ => a == 0
  | .V6 a _ => a == 0

/-- `IpNetwork::new(net.network(), net.prefix()).unwrap()`: normalize to
the network address, keeping the prefix length (cannot fail, since the
prefix length is already valid). -/
def IpNetwork.normalize : IpNetwork → IpNetwork
  | .V4 a p => .V4 (v4NetworkAddr a p) p
  | .V6 a p => .V6 (v6NetworkAddr a p) p

/-- `IpNetwork::broadcast()`: the last address of the network. -/
def IpNetwork.broadcastAddr : IpNetwork → Nat
  | .V4 a p => v4BroadcastAddr a p
  | .V6 a p => v6NetworkAddr a p + (2 ^ (128 - p) - 1)

/-- `Ipv4Network::is_subnet_of(self, other)`:
`other.ip() <= self.ip() && other.broadcast() >= self.broadcast()`. -/
def v4IsSubnetOf (a ap b bp : Nat) : Bool :=
  decide (b ≤ a) && decide (v4BroadcastAddr a ap ≤ v4BroadcastAddr b bp)

/-- `layer4.rs` lines 29-31: `IPV4_PRIVATE_A` = 10.0.0.0/8. -/
def IPV4_PRIVATE_A : IpNetwork := .V4 167772160 8

/-- `layer4.rs` lines 29-31: `IPV4_PRIVATE_B` = 172.16.0.0/12. -/
def IPV4_PRIVATE_B : IpNetwork := .V4 2886729728 12

/-- `layer4.rs` lines 29-31: `IPV4_PRIVATE_C` = 192.168.0.0/16. -/
def IPV4_PRIVATE_C : IpNetwork := .V4 3232235520 16

/-- `layer4.rs` lines 40-49: `is_private_network`.  The `V6` branch is
`unreachable!()` in the source; it is only ever evaluated behind an
`is_ipv4()` guard, so modelling it as `false` is unobservable. -/
def is_private_network : IpNetwork → Bool
  | .V4 a p =>
      v4IsSubnetOf a p IPV4_PRIVATE_A.ipAddr 8 ||
        v4IsSubnetOf a p IPV4_PRIVATE_B.ipAddr 12 ||
        v4IsSubnetOf a p IPV4_PRIVATE_C.ipAddr 16
  | .V6 _ _ => false

/-- The crate's derived `Ord` on `IpNetwork` as a boolean total order:
`V4 < V6`, then lexicographically by address and prefix length. -/
def netLe : IpNetwork → IpNetwork → Bool
  | .V4 a p, .V4 b q => decide (a < b) || (decide (a = b) && decide (p ≤ q))
  | .V4 _ _, .V6 _ _ => true
  | .V6 _ _, .V4 _ _ => false
  | .V6 a p, .V6 b q => decide (a < b) || (decide (a = b) && decide (p ≤ q))

/-- Insertion sort by `netLe`, modelling `Vec::sort` (a stable sort by a
total order; any correct sort produces the same list). -/
def insortNet (a : IpNetwork) : List IpNetwork → List IpNetwork
  | [] => [a]
  | b :: rest => if netLe a b then a :: b :: rest else b :: insortNet a rest

def sortNets : List IpNetwork → List IpNetwork
  | [] => []
  | a :: rest => insortNet a (sortNets rest)

/-- `Vec::dedup`: remove consecutive duplicates. -/
def dedupConsec : List IpNetwork → List IpNetwork
  | [] => []
  | [a] => [a]
  | a :: b :: rest => if a = b then dedupConsec (b :: rest) else a :: dedupConsec (b :: rest)

/-- `layer4.rs` lines 52-59: the locally attached private IPv4 networks,
normalized.  `localIps` models the flattened interface address list
(`pnet::datalink::interfaces()` then `flat_map(|e| e.ips)`), an
environment input passed explicitly. -/
def networksAvail (localIps : List IpNetwork) : List IpNetwork :=
  (localIps.filter (fun net => net.isIpv4 && is_private_network net)).map IpNetwork.normalize

/-- `layer4.rs` lines 51-89: `sanitize_destination_networks`, with the
interface snapshot passed explicitly.  The `[]` branch of the match is
unreachable (the source indexes `relay_to[0]` there): `relayTo` is
non-empty past the length guard, and normalization, sorting and dedup
preserve non-emptiness.  In the non-wildcard branch the source copies
every destination, emitting only a warning for unavailable ones. -/
def sanitize_destination_networks (localIps relayTo : List IpNetwork) :
    Except String (List IpNetwork) :=
  if (networksAvail localIps).length = 0 then .error "no available networks!"
  else if relayTo.length = 0 then .error "no relay networks specified!"
  else
    .ok (dedupConsec (sortNets
      (match dedupConsec (sortNets (relayTo.map IpNetwork.normalize)) with
       | n :: rest => if n.isUnspecified then networksAvail localIps else n :: rest
       | [] => [])))

/-! ### Claims about the network sanitizer -/

/-- Claim C4: if the normalized, sorted, deduplicated destination list
begins with the unspecified network 0.0.0.0/0, the sanitizer's output is
exactly the set of locally attached private IPv4 networks, sorted and
deduplicated. -/
theorem sanitize_wildcard (localIps relayTo : List IpNetwork)
    (havail : networksAvail localIps ≠ [])
    (hhead : (dedupConsec (sortNets (relayTo.map IpNetwork.normalize))).head? =
      some (IpNetwork.V4 0 0)) :
    sanitize_destination_networks localIps relayTo
      = .ok (dedupConsec (sortNets (networksAvail localIps))) := by
  have hr : relayTo ≠ [] := by
    intro he
    subst he
    simp [sortNets, dedupConsec] at hhead
  unfold sanitize_destination_networks
  rw [if_neg (fun h => havail (List.length_eq_zero.mp h)),
    if_neg (fun h => hr (List.length_eq_zero.mp h))]
  rcases hR : dedupConsec (sortNets (relayTo.map IpNetwork.normalize)) with - | ⟨n, rest⟩
  · rw [hR] at hhead
    simp at hhead
  · rw [hR] at hhead
    simp at hhead
    subst hhead
    simp [IpNetwork.isUnspecified]

/-- Witness for C4: destinations `[0.0.0.0/0]` with local private
networks 10.1.0.0/24 and 192.168.5.0/24 yield exactly those two. -/
theorem sanitize_wildcard_witness :
    sanitize_destination_networks
        [IpNetwork.V4 167837696 24, IpNetwork.V4 3232236800 24] [IpNetwork.V4 0 0]
      = .ok [IpNetwork.V4 167837696 24, IpNetwork.V4 3232236800 24] := by
  have h := sanitize_wildcard
    [IpNetwork.V4 167837696 24, IpNetwork.V4 3232236800 24] [IpNetwork.V4 0 0]
    (by decide) (by decide)
  rw [h]
  rfl

/-- Claim C8: the sanitizer fails iff there is no locally attached
private IPv4 network or the caller-supplied destination list is empty;
in every other case it returns `ok`. -/
theorem sanitize_error_iff (localIps relayTo : List IpNetwork) :
    (sanitize_destination_networks localIps relayTo).isOk = false ↔
      networksAvail localIps = [] ∨ relayTo = [] := by
  unfold sanitize_destination_networks
  by_cases h1 : (networksAvail localIps).length = 0
  · rw [if_pos h1]
    constructor
    · intro _
      exact Or.inl (List.length_eq_zero.mp h1)
    · intro _
      rfl
  · rw [if_neg h1]
    by_cases h2 : relayTo.length = 0
    · rw [if_pos h2]
      constructor
      · intro _
        exact Or.inr (List.length_eq_zero.mp h2)
      · intro _
        rfl
    · rw [if_neg h2]
      constructor
      · intro hf
        simp [Except.isOk, Except.toBool] at hf
      · rintro (h | h)
        · exact absurd (List.length_eq_zero.mpr h) h1
        · exact absurd (List.length_eq_zero.mpr h) h2

/-- Witness for C8: with no local interface addresses at all the
sanitizer fails. -/
theorem sanitize_error_iff_witness :
    (sanitize_destination_networks [] [IpNetwork.V4 167837696 24]).isOk = false := by
  exact (sanitize_error_iff [] [IpNetwork.V4 167837696 24]).mpr (Or.inl rfl)

/-! ### Link-layer worker startup (`src/layer2.rs`) -/

/-- `pnet::datalink::NetworkInterface`, restricted to the fields the
worker startup inspects, plus `channelOk`: whether
`datalink::channel(&iface, cfg)` yields an Ethernet channel — an
environment fact recorded per interface. -/
structure NetworkInterface where
  name : String
  index : Nat
  isUp : Bool
  isLoopback : Bool
  channelOk : Bool
  deriving DecidableEq, Repr

/-- `layer2.rs` lines 44-115, startup portion of `l2_worker`: filter the
interface snapshot by configured name, fail when that filter is empty,
then spawn one capture thread per remaining interface that is
non-loopback, up, and yields an Ethernet channel.  The `ok` value is the
list of capture interfaces' indices (the relay thread is spawned
unconditionally afterwards and is not counted here). -/
def l2_worker_startup (cfgInterfaces : List String) (avail : List NetworkInterface) :
    Except String (List Nat) :=
  if (avail.filter (fun i => cfgInterfaces.contains i.name)).length = 0 then
    .error "no suitable L2 interfaces available!"
  else
    .ok (((avail.filter (fun i => cfgInterfaces.contains i.name)).filter
      (fun i => !i.isLoopback && i.isUp && i.channelOk)).map (fun i => i.index))

/-- Claim C5 counterexample: a configured name that resolves only to a
loopback (hence non-operational) interface still yields `ok` — with an
empty capture list, i.e. zero capture threads — not a configuration
error as the claim requires. -/
theorem l2_worker_startup_counterexample :
    l2_worker_startup ["lo"] [⟨"lo", 1, true, true, true⟩] = .ok [] := by
  rfl

/-- Claim C5 (amended): `l2_worker` returns a configuration error iff no
available interface's name is among the configured names; whenever some
name matches it returns `ok`, even when every matching interface is
loopback, down, or without a usable channel — in which case zero capture
threads are spawned. -/
theorem l2_worker_startup_ok_iff (cfgInterfaces : List String)
    (avail : List NetworkInterface) :
    (l2_worker_startup cfgInterfaces avail).isOk = true ↔
      avail.filter (fun i => cfgInterfaces.contains i.name) ≠ [] := by
  unfold l2_worker_startup
  by_cases h : (avail.filter (fun i => cfgInterfaces.contains i.name)).length = 0
  · rw [if_pos h]
    constructor
    · intro hf
      simp [Except.isOk, Except.toBool] at hf
    · intro hne
      exact absurd (List.length_eq_zero.mp h) hne
  · rw [if_neg h]
    constructor
    · intro _
      exact fun he => h (List.length_eq_zero.mpr he)
    · intro _
      rfl

/-- Witness for the amended C5: one configured, operational interface. -/
theorem l2_worker_startup_ok_iff_witness :
    (l2_worker_startup ["eth0"] [⟨"eth0", 2, true, false, true⟩]).isOk = true := by
  exact (l2_worker_startup_ok_iff ["eth0"] [⟨"eth0", 2, true, false, true⟩]).mpr (by decide)

/-! ### Cooldown cache and the two relay stages -/

/-- Hardware (MAC) address: the 6-byte list extracted from a payload. -/
abbrev Mac := List Nat

/-- `HashMap<MacAddr, Instant>` modelled as an association list whose
key uniqueness is maintained by `cdInsert`. -/
abbrev CooldownList := List (Mac × Nat)

/-- `HashMap::get`. -/
def cdLookup (cd : CooldownList) (k : Mac) : Option Nat :=
  match cd.find? (fun e => e.1 == k) with
  | some e => some e.2
  | none => none

/-- `HashMap::remove` (the returned previous value is unused). -/
def cdErase (cd : CooldownList) (k : Mac) : CooldownList :=
  cd.filter (fun e => !(e.1 == k))

/-- `HashMap::insert`, overwriting any previous entry for the key. -/
def cdInsert (cd : CooldownList) (k : Mac) (v : Nat) : CooldownList :=
  (k, v) :: cdErase cd k

lemma cdErase_idem (cd : CooldownList) (k : Mac) :
    cdErase (cdErase cd k) k = cdErase cd k := by
  induction cd with
  | nil => rfl
  | cons e rest ih =>
    unfold cdErase at ih ⊢
    cases h : e.1 == k with
    | true => simp [List.filter, h, ih]
    | false => simp [List.filter, h, ih]

/-- One message as dequeued by the link-layer relay thread (`layer2.rs`
`WolMessage`): ingress interface index, full frame bytes, target
address.  (`iface` carries the full descriptor in the source; only its
index is read by the relay thread.) -/
structure L2Msg where
  ifaceIdx : Nat
  frame : List Nat
  target : Mac

/-- `layer2.rs` lines 118-146, one relay-thread iteration for a dequeued
message: consult the cooldown map — inside the window the message is
dropped, an expired entry is lazily removed — then retransmit the frame
on every sender whose interface index differs from the ingress index.
`senders` is the index list of the per-interface senders; the result is
the list of (interface index, frame bytes) transmissions and the new
cooldown map.  The source never inserts into `cooldown_list`. -/
def l2_relay_step (senders : List Nat) (cd : CooldownList) (cooldownDur : Nat)
    (msg : L2Msg) (now : Nat) : List (Nat × List Nat) × CooldownList :=
  match cdLookup cd msg.target with
  | some t =>
    if now - t < cooldownDur then ([], cd)
    else
      ((senders.filter (fun i => i != msg.ifaceIdx)).map (fun i => (i, msg.frame)),
        cdErase cd msg.target)
  | none =>
    ((senders.filter (fun i => i != msg.ifaceIdx)).map (fun i => (i, msg.frame)), cd)

/-- Claim C1 (code bug): the link-layer relay stage never records a relay
timestamp.  Concretely: relaying a first message for a target leaves the
cooldown map empty, and a second message for the same target one time
unit later — inside any positive window, here 100 — is relayed again
instead of dropped.  In general, one relay step only ever keeps or
shrinks the cooldown map; no entry is ever added. -/
theorem l2_cooldown_never_recorded :
    ((l2_relay_step [1, 2] [] 100 ⟨0, [9, 9], [0, 1, 2, 3, 4, 5]⟩ 0).1 ≠ [] ∧
      (l2_relay_step [1, 2] [] 100 ⟨0, [9, 9], [0, 1, 2, 3, 4, 5]⟩ 0).2 = [] ∧
      (l2_relay_step [1, 2] [] 100 ⟨0, [9, 9], [0, 1, 2, 3, 4, 5]⟩ 1).1 ≠ []) ∧
    ∀ (senders : List Nat) (cd : CooldownList) (dur : Nat) (msg : L2Msg) (now : Nat),
      (l2_relay_step senders cd dur msg now).2 = cd ∨
        (l2_relay_step senders cd dur msg now).2 = cdErase cd msg.target := by
  refine ⟨by decide, ?_⟩
  intro senders cd dur msg now
  simp only [l2_relay_step]
  split
  · split
    · exact Or.inl rfl
    · exact Or.inr rfl
  · exact Or.inl rfl

/-- Claim C7: a dequeued link-layer message that is not suppressed by the
cooldown cache is retransmitted, unmodified, on exactly the senders whose
interface index differs from the ingress index — never on the ingress
interface itself. -/
theorem l2_relay_egress (senders : List Nat) (cd : CooldownList) (cooldownDur : Nat)
    (msg : L2Msg) (now : Nat)
    (h : ∀ t, cdLookup cd msg.target = some t → cooldownDur ≤ now - t) :
    (l2_relay_step senders cd cooldownDur msg now).1
      = (senders.filter (fun i => i != msg.ifaceIdx)).map (fun i => (i, msg.frame)) ∧
    ∀ e ∈ (l2_relay_step senders cd cooldownDur msg now).1,
      e.1 ≠ msg.ifaceIdx ∧ e.2 = msg.frame := by
  have h1 : (l2_relay_step senders cd cooldownDur msg now).1
      = (senders.filter (fun i => i != msg.ifaceIdx)).map (fun i => (i, msg.frame)) := by
    simp only [l2_relay_step]
    split
    · next t heq =>
        rw [if_neg (Nat.not_lt.mpr (h t heq))]
    · rfl
  refine ⟨h1, ?_⟩
  intro e he
  rw [h1] at he
  obtain ⟨i, hi, rfl⟩ := List.mem_map.mp he
  have hp := List.of_mem_filter hi
  exact ⟨by simpa using hp, rfl⟩

/-- Witness for C7: ingress index 0, senders 0, 1, 2. -/
theorem l2_relay_egress_witness :
    (l2_relay_step [0, 1, 2] [] 100 ⟨0, [9, 9], [0, 1, 2, 3, 4, 5]⟩ 5).1
      = [(1, [9, 9]), (2, [9, 9])] := by
  have h := l2_relay_egress [0, 1, 2] [] 100 ⟨0, [9, 9], [0, 1, 2, 3, 4, 5]⟩ 5
    (by intro t ht; simp [cdLookup] at ht)
  rw [h.1]
  rfl

/-- One message as dequeued by the transport-layer relay task
(`layer4.rs` `WolMessage`): source socket address (only logged by the
relay task, carried for fidelity), target address, raw datagram bytes. -/
structure L4Msg where
  src : Nat
  target : Mac
  msg : List Nat

/-- `layer4.rs` lines 155-188, one relay-task iteration for a dequeued
message: consult the cooldown map exactly as the link layer does; when
not suppressed, send the unmodified datagram bytes to every sanitized
network's broadcast address on port 9, then insert the relay timestamp
for the target — once, after the egress loop.  The result is the list of
(payload bytes, destination address, destination port) transmissions and
the new cooldown map. -/
def l4_relay_step (networks : List IpNetwork) (cd : CooldownList) (cooldownDur : Nat)
    (m : L4Msg) (now : Nat) : List (List Nat × Nat × Nat) × CooldownList :=
  match cdLookup cd m.target with
  | some t =>
    if now - t < cooldownDur then ([], cd)
    else
      (networks.map (fun net => (m.msg, net.broadcastAddr, 9)),
        cdInsert (cdErase cd m.target) m.target now)
  | none =>
    (networks.map (fun net => (m.msg, net.broadcastAddr, 9)), cdInsert cd m.target now)

/-- Claim C6: a dequeued transport-layer message that is not suppressed
by the cooldown cache is sent, byte-for-byte unmodified, to every
sanitized network's broadcast address on port 9, and the new cooldown
map is a single insertion of the target's timestamp — one update per
relay decision, independent of how many egress sends occur. -/
theorem l4_relay_fanout (networks : List IpNetwork) (cd : CooldownList) (cooldownDur : Nat)
    (m : L4Msg) (now : Nat)
    (h : ∀ t, cdLookup cd m.target = some t → cooldownDur ≤ now - t) :
    (l4_relay_step networks cd cooldownDur m now).1
      = networks.map (fun net => (m.msg, net.broadcastAddr, 9)) ∧
    (l4_relay_step networks cd cooldownDur m now).2 = cdInsert cd m.target now := by
  simp only [l4_relay_step]
  split
  · next t heq =>
      rw [if_neg (Nat.not_lt.mpr (h t heq))]
      refine ⟨rfl, ?_⟩
      simp only [cdInsert, cdErase_idem]
  · exact ⟨rfl, rfl⟩

/-- Witness for C6: one sanitized network 10.1.0.0/24, whose broadcast
address is 10.1.0.255 = 167837951. -/
theorem l4_relay_fanout_witness :
    (l4_relay_step [IpNetwork.V4 167837696 24] [] 100 ⟨3, [0, 1, 2, 3, 4, 5], [9, 9]⟩ 5).1
      = [([9, 9], 167837951, 9)] ∧
    (l4_relay_step [IpNetwork.V4 167837696 24] [] 100 ⟨3, [0, 1, 2, 3, 4, 5], [9, 9]⟩ 5).2
      = [([0, 1, 2, 3, 4, 5], 5)] := by
  have h := l4_relay_fanout [IpNetwork.V4 167837696 24] [] 100 ⟨3, [0, 1, 2, 3, 4, 5], [9, 9]⟩ 5
    (by intro t ht; simp [cdLookup] at ht)
  exact ⟨by rw [h.1]; rfl, by rw [h.2]; rfl⟩
